import Mathlib

/-!
# Verification of the NPUW partitioned-inference executor

Shallow embedding of the core of `just_sync_infer_request.cpp` and
`util.cpp` from the `intel_npu` NPUW plugin, together with proofs that
settle the frozen claims about it.

The embedding follows the source:

* `ov::npuw::util::gather` (util.cpp, lines 73-103) is modelled by its
  runtime assertions (`gatherChecks`) and the byte-level memory accesses it
  performs (`gatherAccesses`).
* `tread_4b` / `twrite_4b` / `ov::npuw::util::transpose` (util.cpp, lines
  209-247) are modelled at byte level on packed 4-bit data (`tread4b`,
  `twrite4b`, `transposeI4`).
* `JustInferRequest::unsafe_infer` (lines 746-851) is modelled as the trace
  of set-tensor / infer / copy events it issues (`inferTrace`).
* `JustInferRequest::unpack_closure` (lines 561-633) is modelled by the
  classification of closure indices it performs (`unpackClosureLists`,
  `kernelFor`).
* the constructor's weights-bank binding loop (lines 213-239) is modelled
  by the list of ports it binds (`ctorClosureBinds`).
* `JustInferRequest::connect_subrequests` (lines 242-305) is modelled as a
  fallible fold over the link map (`wireStep`, `wireAll`).
* `JustInferRequest::run_subrequest_for_success` (lines 659-727) together
  with `recreate_subrequests` (635-657) is modelled as a fuelled loop over
  an explicit request-pool state (`runLoop`, `recreateSub`).  The body of
  the try-block (`unsafe_run_this_prep_next`) is abstracted by a
  per-attempt exception oracle, and the external `compile_for_success`
  collaborator is modelled from the spec.
* `JustInferRequest::cancel_subrequest` (lines 928-930) is `cancelTarget`.
-/

/-! ## Element types -/

/-- Tensor element types that appear in the modelled code paths. -/
inductive EType where
  | i4
  | u4
  | i8
  | u8
  | f16
  | f32
  | i64
deriving DecidableEq, Repr

/-- `ov::element::Type::size()` in bytes for the types above (sub-byte
types round up to one byte; only `f16`/`f32`/`i64` matter for `gather`). -/
def etSize : EType → Nat
  | .i4 => 1
  | .u4 => 1
  | .i8 => 1
  | .u8 => 1
  | .f16 => 2
  | .f32 => 4
  | .i64 => 8

/-! ## `ov::npuw::util::gather` (util.cpp, lines 73-103)

The arguments are modelled by their shapes, element types and the index
tensor's contents; `i64` index values are `Int`. -/

structure GatherArgs where
  srcType : EType
  dstType : EType
  idxType : EType
  srcShape : List Nat
  idxShape : List Nat
  dstShape : List Nat
  idxData : Nat → Int

/-- The `NPUW_ASSERT` preconditions of `gather`, in source order:
idx is `i64`; src is `f16` or `f32`; src and dst types agree; idx is
2-D with `idx_shape[0] == 1`; src is 2-D; dst is 3-D; and
`src_shape[1] == dst_shape[2]`. -/
def gatherChecks (g : GatherArgs) : Bool :=
  (g.idxType == EType.i64) &&
  (g.srcType == EType.f16 || g.srcType == EType.f32) &&
  (g.srcType == g.dstType) &&
  (g.idxShape.length == 2) &&
  (g.idxShape.getD 0 0 == 1) &&
  (g.srcShape.length == 2) &&
  (g.dstShape.length == 3) &&
  (g.srcShape.getD 1 0 == g.dstShape.getD 2 0)

/-- One byte-range access performed by `gather`; `start` may be negative
because the row index read from the `i64` tensor is signed. -/
structure MemAccess where
  isWrite : Bool
  start : Int
  len : Nat
deriving DecidableEq, Repr

/-- The loop body of `gather`: for each `r < idx_shape[1]` it reads the
row `src + src_shape[1] * idx[0,r] * src_type.size()` of length
`src_shape[1] * src_type.size()` and writes it at
`dst + r * dst_shape[2] * dst_type.size()`.  No bound on `idx[0,r]` and no
relation between `r` and the dst shape is ever checked. -/
def gatherAccesses (g : GatherArgs) : List MemAccess :=
  let esz := etSize g.srcType
  let cols := g.srcShape.getD 1 0
  let n := g.idxShape.getD 1 0
  let dst2 := g.dstShape.getD 2 0
  (List.range n).flatMap fun r =>
    [ { isWrite := false
        start := ((cols : Int) * g.idxData r) * (esz : Int)
        len := cols * esz },
      { isWrite := true
        start := ((r * dst2 * etSize g.dstType : Nat) : Int)
        len := cols * esz } ]

/-- Total size of the `src` buffer in bytes. -/
def srcBytes (g : GatherArgs) : Nat :=
  g.srcShape.getD 0 0 * g.srcShape.getD 1 0 * etSize g.srcType

/-- Total size of the `dst` buffer in bytes. -/
def dstBytes (g : GatherArgs) : Nat :=
  g.dstShape.getD 0 0 * g.dstShape.getD 1 0 * g.dstShape.getD 2 0 *
    etSize g.dstType

/-- A byte-range access is in bounds when it is empty (a zero-length
`std::copy_n` touches no memory) or lies inside `[0, total)`. -/
def accessOkB (total : Nat) (a : MemAccess) : Bool :=
  (a.len == 0) ||
    (decide (0 ≤ a.start) && decide (a.start + (a.len : Int) ≤ (total : Int)))

/-- All memory accesses of `gather` are in bounds for their buffers. -/
def gatherInBoundsB (g : GatherArgs) : Bool :=
  (gatherAccesses g).all fun a =>
    accessOkB (if a.isWrite then dstBytes g else srcBytes g) a

/-! ## 4-bit packed tensors and `transpose` (util.cpp, lines 209-247)

Data is a byte store `Nat → Nat`; the helpers `hi4`/`lo4` implement the
`uint8_t` nibble extractions (`x >> 4` and `x & 0xF`) faithfully for any
stored value, since `x / 16 % 16 = (x % 256) / 16` and
`x % 16 = (x % 256) % 16`. -/

/-- High nibble of a byte (`hi4` in util.cpp). -/
def hi4 (x : Nat) : Nat := x / 16 % 16

/-- Low nibble of a byte (`lo4` in util.cpp). -/
def lo4 (x : Nat) : Nat := x % 16

/-- `tread_4b(t, r, c, COLS)`: read the 4-bit element at row `r`,
column `c` of a row-major packed buffer, using the source's addressing
`tdata + r * COLS / 2 + c / 2` and nibble parity `c % 2`. -/
def tread4b (data : Nat → Nat) (r c cols : Nat) : Nat :=
  let b := data (r * cols / 2 + c / 2)
  if c % 2 = 0 then lo4 b else hi4 b

/-- `twrite_4b(t, value, r, c, COLS)`: write the 4-bit `value` at row `r`,
column `c`, preserving the other nibble of the touched byte. -/
def twrite4b (data : Nat → Nat) (v r c cols : Nat) : Nat → Nat :=
  fun k =>
    if k = r * cols / 2 + c / 2 then
      if c % 2 = 0 then
        hi4 (data (r * cols / 2 + c / 2)) * 16 + lo4 v
      else
        lo4 v * 16 + lo4 (data (r * cols / 2 + c / 2))
    else data k

/-- A 3-D `i4` tensor: shape `[dimA, dimB, dimC]` over a packed byte
store.  The fresh buffer allocated by `ov::Tensor` is modelled as
zero-initialised. -/
structure I4Tensor where
  dimA : Nat
  dimB : Nat
  dimC : Nat
  data : Nat → Nat

/-- `ov::npuw::util::transpose`: layout `[A,B,C] → [C,A,B]`.  It reads
every element of the flattened `[A*B, C]` view with `tread_4b` and writes
it transposed with `twrite_4b` into a fresh tensor. -/
def transposeI4 (t : I4Tensor) : I4Tensor :=
  let inRows := t.dimA * t.dimB
  let inCols := t.dimC
  let nd := (List.range inRows).foldl
    (fun acc i =>
      (List.range inCols).foldl
        (fun acc2 j => twrite4b acc2 (tread4b t.data i j inCols) j i inRows)
        acc)
    (fun _ => 0)
  { dimA := t.dimC, dimB := t.dimA, dimC := t.dimB, data := nd }

/-- The 4-bit element at linear index `n` of a packed buffer under the
canonical packing (low nibble at even index), which is how the tensor's
contents are interpreted. -/
def elem4 (data : Nat → Nat) (n : Nat) : Nat :=
  if n % 2 = 0 then lo4 (data (n / 2)) else hi4 (data (n / 2))

/-- Element `(a, b, c)` of a 3-D `i4` tensor. -/
def elemAt (t : I4Tensor) (a b c : Nat) : Nat :=
  elem4 t.data ((a * t.dimB + b) * t.dimC + c)

/-! ## Compiled-submodel descriptors (compiled_model.hpp collaborator)

Only the fields the modelled code paths read.  Tensors are abstracted to
their element types where only element types are inspected. -/

/-- One entry of `spatial->params`: `{idx, dim}`. -/
structure SpatialParam where
  idx : Nat
  dim : Nat
deriving DecidableEq, Repr

/-- The optional `spatial` descriptor:
`{params, out_dim, range, nway, nway_iters, tail_size}`. -/
structure SpatialDesc where
  params : List SpatialParam
  out_dim : Nat
  range : Nat
  nway : Nat
  nway_iters : Nat
  tail_size : Nat
deriving DecidableEq, Repr

/-- One `CompiledModelDesc`: `compiled` is whether `compiled_model` is
non-null, `replacedBy` is `replaced_by`, `closureLen` is `closure.size()`,
`closureET c` is the element type of `closure[c]`, `scalesEmpty` is
`scales.empty()`, and `scalesPresent c`/`zeropsPresent c` record whether
the companion tensors `scales[c]`/`zerops[c]` are non-null.  The
per-index vectors are modelled as total functions; only indices below
`closureLen` are ever used. -/
structure SubDesc where
  compiled : Bool
  replacedBy : Option Nat
  param_base : Nat
  closureLen : Nat
  closureET : Nat → EType
  update_required : Nat → Bool
  scalesEmpty : Bool
  scalesPresent : Nat → Bool
  zeropsPresent : Nat → Bool
  spatial : Option SpatialDesc
  numOutputs : Nat

/-! ## `unsafe_infer` (just_sync_infer_request.cpp, lines 746-851)

The execution is modelled as the trace of observable actions on the
subrequest and the `m_spatial_io` buffers. -/

/-- A tensor that appears in `unsafe_infer`: a deferred spatial input or
output of `m_spatial_io[real_idx]`, or one of its tail buffers. -/
inductive SpSrc where
  | sIn (p : Nat)
  | sOut (o : Nat)
  | sInTail (p : Nat)
  | sOutTail (o : Nat)
deriving DecidableEq, Repr

/-- One action of `unsafe_infer`.  A `set` with window `some (dim, off,
len)` is a `set_tensor` of `view(tensor, dim, off, len)`; window `none`
binds the tensor whole.  `copySlice s sdim soff d ddim doff len` is
`view(s, sdim, soff, len)->copy_to(view(d, ddim, doff, len))`. -/
inductive SpEv where
  | setIn (port : Nat) (src : SpSrc) (win : Option (Nat × Nat × Nat))
  | setOut (port : Nat) (src : SpSrc) (win : Option (Nat × Nat × Nat))
  | runInfer
  | copySlice (src : SpSrc) (sdim soff : Nat) (dst : SpSrc)
      (ddim doff : Nat) (len : Nat)
deriving DecidableEq, Repr

/-- One full-NWAY iteration of the spatial loop at offset `off`: bind
`view(inputs[p.idx], p.dim, off, nway)` for every `p ∈ params`, bind
`view(outputs[o], out_dim, off, nway)` for every output, infer. -/
def spatialIterEvents (d : SubDesc) (sp : SpatialDesc) (off : Nat) :
    List SpEv :=
  (sp.params.map fun p =>
    SpEv.setIn p.idx (SpSrc.sIn p.idx) (some (p.dim, off, sp.nway)))
  ++ ((List.range d.numOutputs).map fun o =>
    SpEv.setOut o (SpSrc.sOut o) (some (sp.out_dim, off, sp.nway)))
  ++ [SpEv.runInfer]

/-- The tail block at offset `off`: per param, copy the `tail_size` slice
of the input at `off` into offset 0 of the input-tail buffer and bind the
tail buffer whole; bind every output-tail buffer whole; infer; copy the
`tail_size` slice at offset 0 of each output-tail buffer back into the
output at `off` along `out_dim`. -/
def spatialTailEvents (d : SubDesc) (sp : SpatialDesc) (off : Nat) :
    List SpEv :=
  (sp.params.flatMap fun p =>
    [ SpEv.copySlice (SpSrc.sIn p.idx) p.dim off
        (SpSrc.sInTail p.idx) p.dim 0 sp.tail_size,
      SpEv.setIn p.idx (SpSrc.sInTail p.idx) none ])
  ++ ((List.range d.numOutputs).map fun o =>
    SpEv.setOut o (SpSrc.sOutTail o) none)
  ++ [SpEv.runInfer]
  ++ ((List.range d.numOutputs).map fun o =>
    SpEv.copySlice (SpSrc.sOutTail o) sp.out_dim 0
      (SpSrc.sOut o) sp.out_dim off sp.tail_size)

/-- The trace of `unsafe_infer`: a non-spatial body is inferred once; a
spatial body runs the `nway_iters` loop with the accumulated `offset`
(`for (i = 0; i < nway_iters; i++, offset += nway)`) followed by the tail
block when `tail_size` is non-zero. -/
def inferTrace (d : SubDesc) : List SpEv :=
  match d.spatial with
  | none => [SpEv.runInfer]
  | some sp =>
    let main := (List.range sp.nway_iters).foldl
      (fun acc _ => (acc.1 + sp.nway, acc.2 ++ spatialIterEvents d sp acc.1))
      ((0 : Nat), ([] : List SpEv))
    main.2 ++ (if sp.tail_size = 0 then [] else spatialTailEvents d sp main.1)

/-- Modelled from the spec (claim C2's wording, for refinement
comparison): iteration `k` works at offset `k * nway`, and the tail, when
`tail_size > 0`, at offset `nway_iters * nway`; a non-spatial body is
inferred exactly once. -/
def specInferTrace (d : SubDesc) : List SpEv :=
  match d.spatial with
  | none => [SpEv.runInfer]
  | some sp =>
    ((List.range sp.nway_iters).flatMap fun k =>
      spatialIterEvents d sp (k * sp.nway))
    ++ (if sp.tail_size = 0 then []
        else spatialTailEvents d sp (sp.nway_iters * sp.nway))

/-- Number of `infer()` calls in a trace. -/
def countInfers (es : List SpEv) : Nat :=
  es.countP fun e => decide (e = SpEv.runInfer)

/-! ## `unpack_closure` (just_sync_infer_request.cpp, lines 561-633) -/

/-- Which unpack kernel is chosen for a closure index. -/
inductive UKernel where
  | plain
  | scaleOnly
  | scaleZerop
deriving DecidableEq, Repr

/-- The kernel selection of the sequential unpack loop (lines 617-631):
`unpack2` when `!scales.empty() && scales[c] && zerops[c]`, `unpack1`
when `!scales.empty() && scales[c]`, plain `unpack` otherwise. -/
def kernelFor (d : SubDesc) (c : Nat) : UKernel :=
  if !d.scalesEmpty && d.scalesPresent c && d.zeropsPresent c then
    UKernel.scaleZerop
  else if !d.scalesEmpty && d.scalesPresent c then
    UKernel.scaleOnly
  else
    UKernel.plain

/-- Phase 1 of `unpack_closure` over closure indices in order: collect
`closure_unpack_required` (element type of `closure[c]` differs from the
element type of the request's tensor at port `param_base + c`), collect
`closure_copy_required` (`update_required[c]` and `needs_copy(idx)`), and
rebind the port directly otherwise when `update_required[c]`.  The result
triple is (unpack list, copy list, direct-rebind list); the copies then
run in a `parallel_for` batch while the unpacks run sequentially. -/
def unpackStep (d : SubDesc) (portET : Nat → EType) (needsCopy : Bool)
    (acc : List Nat × List Nat × List Nat) (c : Nat) :
    List Nat × List Nat × List Nat :=
  if d.closureET c ≠ portET (d.param_base + c) then
    (acc.1 ++ [c], acc.2.1, acc.2.2)
  else if d.update_required c then
    if needsCopy then (acc.1, acc.2.1 ++ [c], acc.2.2)
    else (acc.1, acc.2.1, acc.2.2 ++ [c])
  else acc

def unpackClosureLists (d : SubDesc) (portET : Nat → EType)
    (needsCopy : Bool) : List Nat × List Nat × List Nat :=
  (List.range d.closureLen).foldl (unpackStep d portET needsCopy)
    ([], [], [])

/-- Modelled from the spec (claim C3's rule A): the closure indices that
need unpacking. -/
def specUnpackList (d : SubDesc) (portET : Nat → EType) : List Nat :=
  (List.range d.closureLen).filter fun c =>
    decide (d.closureET c ≠ portET (d.param_base + c))

/-- Modelled from the spec (claim C3's rule B): the closure indices that
are copied in parallel. -/
def specCopyList (d : SubDesc) (portET : Nat → EType) (needsCopy : Bool) :
    List Nat :=
  (List.range d.closureLen).filter fun c =>
    decide (d.closureET c = portET (d.param_base + c))
      && d.update_required c && needsCopy

/-- Modelled from the spec (claim C3's rebind rule): the closure indices
whose port is rebound to the closure tensor directly. -/
def specRebindList (d : SubDesc) (portET : Nat → EType) (needsCopy : Bool) :
    List Nat :=
  (List.range d.closureLen).filter fun c =>
    decide (d.closureET c = portET (d.param_base + c))
      && d.update_required c && !needsCopy

/-- Modelled from the spec (claim C3's kernel table): `unpack2` when both
companions are present, `unpack1` when only the scale is, plain `unpack`
otherwise. -/
def specKernelFor (d : SubDesc) (c : Nat) : UKernel :=
  if d.scalesPresent c && d.zeropsPresent c then UKernel.scaleZerop
  else if d.scalesPresent c then UKernel.scaleOnly
  else UKernel.plain

/-! ## The constructor's weights-bank loop (lines 213-239) -/

/-- The descriptor table of one compiled model. -/
structure CtorModel where
  numSub : Nat
  desc : Nat → SubDesc

/-- The `(real_idx, input port)` pairs that the constructor binds with
tensors obtained from the weights bank: for every submodel `i` that has
both a compiled model and `replaced_by`, and every closure index with
`update_required[cidx]` false, port `param_base + cidx` of the body
request `m_subrequests[real_idx]` is set once. -/
def ctorBlock (m : CtorModel) (i : Nat) : List (Nat × Nat) :=
  let d := m.desc i
  if d.compiled && d.replacedBy.isSome then
    (List.range d.closureLen).filterMap fun c =>
      if d.update_required c then none
      else some (d.replacedBy.getD i, d.param_base + c)
  else []

def ctorClosureBinds (m : CtorModel) : List (Nat × Nat) :=
  (List.range m.numSub).flatMap (ctorBlock m)

/-! ## `connect_subrequests` (just_sync_infer_request.cpp, lines 242-305)

Handles and tensors are abstracted to numeric ids.  `outTensor` models
`subreqs[from]->get_tensor(oport)` on the producing request and
`funcallResult` models the preallocated `m_funcall_result` storage (total
by the spec's invariant 2); `set_tensor` on a consumer input port updates
`inBind`.  `set_tensor` and `get_compiled_model` through a null
subrequest pointer are a distinct error outcome. -/

/-- The static inputs of the wiring pass. -/
structure WEnv where
  replacedBy : Nat → Option Nat
  funcallResult : Nat × Nat → Nat
  outTensor : Nat × Nat → Nat

/-- The mutable request-pool view the wiring pass works on. -/
structure WState where
  subreq : Nat → Option Nat
  inBind : Nat × Nat → Option Nat
  warnings : List (Nat × Nat)

/-- One link of `m_submodels_input_to_prev_output`:
`(toSub, toPort) ← (fromSub, fromPort)`. -/
structure WLink where
  toSub : Nat
  toPort : Nat
  fromSub : Nat
  fromPort : Nat
deriving DecidableEq, Repr

/-- How the wiring pass can abort: the `OPENVINO_THROW` naming producer
and consumer when the producer request was optimized out but the consumer
request exists, or the null-pointer dereference in the funcall-to-normal
branch when the consumer request is missing. -/
inductive WErr where
  | fatalOut (fro tos : Nat)
  | nullConsumer (fro tos : Nat)
deriving DecidableEq, Repr

/-- One iteration of the wiring loop, in source branch order:
both ends funcalls → skip; funcall producer, normal consumer → bind the
consumer input to the `m_funcall_result` tensor (dereferencing the
consumer request); normal producer, funcall consumer → skip; producer
request missing but consumer present → fatal throw; consumer request
missing → warn and skip; otherwise bind the consumer input to the
producer's output tensor. -/
def wireStep (env : WEnv) (st : WState) (l : WLink) : Except WErr WState :=
  if (env.replacedBy l.fromSub).isSome && (env.replacedBy l.toSub).isSome then
    .ok st
  else if (env.replacedBy l.fromSub).isSome then
    if (st.subreq l.toSub).isNone then
      .error (.nullConsumer l.fromSub l.toSub)
    else
      .ok { st with
        inBind := fun q =>
          if q = (l.toSub, l.toPort) then
            some (env.funcallResult (l.fromSub, l.fromPort))
          else st.inBind q }
  else if (env.replacedBy l.toSub).isSome then
    .ok st
  else if (st.subreq l.fromSub).isNone && (st.subreq l.toSub).isSome then
    .error (.fatalOut l.fromSub l.toSub)
  else if (st.subreq l.toSub).isNone then
    .ok { st with warnings := st.warnings ++ [(l.fromSub, l.toSub)] }
  else
    .ok { st with
      inBind := fun q =>
        if q = (l.toSub, l.toPort) then
          some (env.outTensor (l.fromSub, l.fromPort))
        else st.inBind q }

/-- The whole wiring pass: fold `wireStep` over the link map. -/
def wireAll (env : WEnv) : List WLink → WState → Except WErr WState
  | [], st => .ok st
  | l :: ls, st =>
    match wireStep env st l with
    | .error e => .error e
    | .ok st1 => wireAll env ls st1

/-! ## `run_subrequest_for_success` (lines 659-727), `recreate_subrequests`
(lines 635-657) and `cancel_subrequest` (lines 928-930)

The state tracks what the failover logic reads and writes: per-descriptor
device-iterator positions, the recorded per-slot devices, the primary and
reserve handles (numeric ids, `fresh` being the next unused id), and the
list of `recreate_subrequests` invocations (each of which re-runs the
wiring).  The try-block body `unsafe_run_this_prep_next` is abstracted by
the per-attempt oracle `throws`; its tensor traffic is modelled separately
by `inferTrace` / `unpackClosureLists`. -/

/-- Static inputs of the failover loop.  `deviceAt d k` is the device the
iterator of descriptor `d` designates at position `k`.  `compileOk r n`
and `compileAdvance r n` model the external `compile_for_success`
collaborator at the `n`-th attempt — modelled from the spec
(`compiled_model.cpp` is not part of the sources): it advances the body's
device iterator through devices until one succeeds and reports failure
when no device is left. -/
structure FoEnv where
  replacedBy : Nat → Option Nat
  deviceAt : Nat → Nat → Nat
  throws : Nat → Bool
  compileOk : Nat → Nat → Bool
  compileAdvance : Nat → Nat → Nat
  pipelineNext : Nat → Bool
  usePipelining : Bool

/-- `real(idx)`: `replaced_by.value_or(idx)`. -/
def realOf (env : FoEnv) (idx : Nat) : Nat := (env.replacedBy idx).getD idx

/-- The request-pool state the failover loop mutates. -/
structure FoState where
  devPos : Nat → Nat
  subreqDev : Nat → Nat
  subreq : Nat → Option Nat
  reserve : Nat → Option Nat
  fresh : Nat
  recreates : List Nat

/-- `recreate_subrequests(p)`: create one fresh request (two when
pipelining) for body `real(p)`, store the reserve only for function
calls with pipelining on, re-run the wiring (recorded by appending `p` to
`recreates`), and record `m_subrequest_devices[p]` from descriptor `p`'s
iterator. -/
def recreateSub (env : FoEnv) (p : Nat) (st : FoState) : FoState :=
  let rp := realOf env p
  { devPos := st.devPos
    subreqDev := fun d =>
      if d = p then env.deviceAt p (st.devPos p) else st.subreqDev d
    subreq := fun d => if d = rp then some st.fresh else st.subreq d
    reserve := fun d =>
      if (env.replacedBy p).isSome && env.usePipelining && d = rp then
        some (st.fresh + 1)
      else st.reserve d
    fresh := st.fresh + (if env.usePipelining then 2 else 1)
    recreates := st.recreates ++ [p] }

/-- Swap the primary and reserve handles of body `r`
(`std::swap(m_subrequests[real_idx], m_funcall_pipeline[real_idx].subrequest)`). -/
def swapAt (r : Nat) (st : FoState) : FoState :=
  { st with
    subreq := fun d => if d = r then st.reserve d else st.subreq d
    reserve := fun d => if d = r then st.subreq d else st.reserve d }

/-- Outcome of `run_subrequest_for_success`: normal return carrying the
final pool state and the `failover` out-parameter, the propagated
`OPENVINO_THROW` when `compile_for_success` fails, or fuel exhaustion
(never reached under the theorems' fuel bounds). -/
inductive LoopResult where
  | ok (st : FoState) (failover : Bool)
  | err
  | fuelOut

/-- The `while (!job_done)` loop of `run_subrequest_for_success(idx)`:
recreate for body `real(idx)` when its recorded device went stale; run the
attempt; on a caught exception set `failover`, advance **descriptor
`idx`'s** device iterator (`comp_model_desc.device_it++` where
`comp_model_desc = m_compiled_submodels[idx]`), call the compile
collaborator for `real(idx)` (throwing when it reports no device left),
recreate via `recreate_subrequests(idx)` and retry; on success swap the
primary and reserve of `real(idx)` when pipelining is on and
`m_funcall_pipeline[idx].next` is set. -/
def runLoop (env : FoEnv) (idx : Nat) :
    Nat → Nat → Bool → FoState → LoopResult
  | 0, _, _, _ => .fuelOut
  | fuel + 1, attempt, fo, st =>
    let r := realOf env idx
    let st0 :=
      if st.subreqDev r ≠ env.deviceAt r (st.devPos r) then
        recreateSub env r st
      else st
    if env.throws attempt then
      let st1 := { st0 with
        devPos := fun d => if d = idx then st0.devPos d + 1 else st0.devPos d }
      let st2 := { st1 with
        devPos := fun d =>
          if d = r then st1.devPos d + env.compileAdvance r attempt
          else st1.devPos d }
      if env.compileOk r attempt then
        runLoop env idx fuel (attempt + 1) true (recreateSub env idx st2)
      else .err
    else
      .ok (if env.usePipelining && env.pipelineNext idx then swapAt r st0
           else st0) fo

/-- `cancel_subrequest(idx)`: the handle the cancel call is forwarded to
is `m_subrequests[idx]` (`none` models the null dereference when that
slot holds no request). -/
def cancelTarget (st : FoState) (idx : Nat) : Option Nat := st.subreq idx

/-! ## Concrete instances used in counterexamples and witnesses -/

/-- The arguments on which the original claim C10 fails: all asserts pass,
all index values are in range, every access is in bounds — yet
`dst_shape[1] = 1 < 2 = N` because `dst_shape[0] = 2` provides the room
and is never checked. -/
def gatherCx : GatherArgs :=
  { srcType := EType.f32
    dstType := EType.f32
    idxType := EType.i64
    srcShape := [1, 1]
    idxShape := [1, 2]
    dstShape := [2, 1, 1]
    idxData := fun _ => 0 }

/-- A `[1,1,3]` `i4` tensor with elements `1, 2, 3` (bytes `0x21 0x03`). -/
def transposeCx : I4Tensor :=
  { dimA := 1
    dimB := 1
    dimC := 3
    data := fun k => if k = 0 then 33 else if k = 1 then 3 else 0 }

/-- An all-even `[2,2,2]` `i4` tensor used to witness
`C9_transpose_triple`. -/
def transposeWx : I4Tensor :=
  { dimA := 2, dimB := 2, dimC := 2, data := fun k => 16 * k + 7 }

/-- Concrete wiring environment refuting claim C4: subgraph 1 is a
function body (`replaced_by = self`), subgraph 0 is optimized out. -/
def wenvCx : WEnv :=
  { replacedBy := fun i => if i = 1 then some 1 else none
    funcallResult := fun _ => 0
    outTensor := fun _ => 0 }

/-- Request pool for the C4 counterexample: subgraph 0 has no request
(optimized out), subgraph 1 (the function body) has one. -/
def wstCx : WState :=
  { subreq := fun i => if i = 1 then some 5 else none
    inBind := fun _ => none
    warnings := [] }

/-- The offending link: producer subgraph 0, consumer subgraph 1. -/
def wlinkCx : WLink :=
  { toSub := 1, toPort := 0, fromSub := 0, fromPort := 0 }

/-- Wiring environment for the `C5_wiring_binds` witness: two normal
subgraphs, producer output tensor id 7. -/
def wenvW : WEnv :=
  { replacedBy := fun _ => none
    funcallResult := fun _ => 0
    outTensor := fun _ => 7 }

/-- Request pool for the `C5_wiring_binds` witness. -/
def wstW : WState :=
  { subreq := fun _ => some 3
    inBind := fun _ => none
    warnings := [] }

/-- The single normal-to-normal link of the `C5_wiring_binds` witness. -/
def wlinkW : WLink :=
  { toSub := 1, toPort := 0, fromSub := 0, fromPort := 0 }

/-- The pool after wiring `[wlinkW]`. -/
def wstW2 : WState :=
  { wstW with inBind := fun q => if q = (1, 0) then some 7 else none }

/-- Projection of a loop outcome used to state counterexamples: the final
device-iterator position of descriptor `d`, when the loop returned. -/
def loopDevPos : LoopResult → Nat → Option Nat
  | LoopResult.ok st _, d => some (st.devPos d)
  | _, _ => none

/-- Projection of a loop outcome: the `failover` out-parameter. -/
def loopFailover : LoopResult → Option Bool
  | LoopResult.ok _ fo => some fo
  | _ => none

/-- Failover environment refuting claims C1 and C8: subgraph 1 is a call
to body 0, the first attempt throws, the compile collaborator then
succeeds without advancing. -/
def foenvCx : FoEnv :=
  { replacedBy := fun i => if i = 1 then some 0 else none
    deviceAt := fun _ _ => 0
    throws := fun n => n == 0
    compileOk := fun _ _ => true
    compileAdvance := fun _ _ => 0
    pipelineNext := fun _ => false
    usePipelining := false }

/-- Request-pool state for the C1/C8 counterexamples: body 0 holds the
only live handle (id 10). -/
def fostCx : FoState :=
  { devPos := fun _ => 0
    subreqDev := fun _ => 0
    subreq := fun i => if i = 0 then some 10 else none
    reserve := fun _ => none
    fresh := 20
    recreates := [] }

/-- Failover environment for the C6 witness: pipelining on, subgraph 1 a
call to body 0 with a pipeline successor, nothing throws. -/
def foenvW : FoEnv :=
  { replacedBy := fun i => if i = 1 then some 0 else none
    deviceAt := fun _ _ => 0
    throws := fun _ => false
    compileOk := fun _ _ => true
    compileAdvance := fun _ _ => 0
    pipelineNext := fun i => i == 1
    usePipelining := true }

/-- Pool for the C6 witness: body 0 has primary id 10 and reserve id 11. -/
def fostW : FoState :=
  { devPos := fun _ => 0
    subreqDev := fun _ => 0
    subreq := fun i => if i = 0 then some 10 else none
    reserve := fun i => if i = 0 then some 11 else none
    fresh := 20
    recreates := [] }

/-- Descriptor refuting claim C7: closure 0 has `update_required = false`
but its element type (`i4`) differs from the `f16` the request exposes at
port `param_base + 0`. -/
def c7descCx : SubDesc :=
  { compiled := true
    replacedBy := some 1
    param_base := 3
    closureLen := 1
    closureET := fun _ => EType.i4
    update_required := fun _ => false
    scalesEmpty := false
    scalesPresent := fun _ => true
    zeropsPresent := fun _ => false
    spatial := none
    numOutputs := 1 }

/-- Model for the `C7_closure_bound_once` witness: submodel 1 is its own
function body with one matching-type closure; submodel 0 is optimized
out. -/
def c7modelW : CtorModel :=
  { numSub := 2
    desc := fun i =>
      if i = 1 then
        { compiled := true
          replacedBy := some 1
          param_base := 2
          closureLen := 1
          closureET := fun _ => EType.f16
          update_required := fun _ => false
          scalesEmpty := true
          scalesPresent := fun _ => false
          zeropsPresent := fun _ => false
          spatial := none
          numOutputs := 1 }
      else
        { compiled := false
          replacedBy := none
          param_base := 0
          closureLen := 0
          closureET := fun _ => EType.f16
          update_required := fun _ => false
          scalesEmpty := true
          scalesPresent := fun _ => false
          zeropsPresent := fun _ => false
          spatial := none
          numOutputs := 0 } }

/-! ## Theorems -/

/-! ### Claim C2 — the spatial execution loop of `unsafe_infer` -/

theorem spatialFold_eq (d : SubDesc) (sp : SpatialDesc) :
    ∀ (n s : Nat) (es : List SpEv),
      (List.range n).foldl
        (fun acc _ => (acc.1 + sp.nway, acc.2 ++ spatialIterEvents d sp acc.1))
        (s, es)
      = (s + n * sp.nway,
         es ++ (List.range n).flatMap fun k =>
           spatialIterEvents d sp (s + k * sp.nway)) := by
  intro n
  induction n with
  | zero => intro s es; simp
  | succ n ih =>
    intro s es
    rw [List.range_succ, List.foldl_append, ih s es, List.flatMap_append]
    simp only [List.foldl_cons, List.foldl_nil, List.flatMap_cons,
      List.flatMap_nil, List.append_nil, List.append_assoc, Prod.mk.injEq]
    exact ⟨by ring, by simp⟩

theorem countInfers_append (a b : List SpEv) :
    countInfers (a ++ b) = countInfers a + countInfers b :=
  List.countP_append ..

theorem countInfers_iter (d : SubDesc) (sp : SpatialDesc) (off : Nat) :
    countInfers (spatialIterEvents d sp off) = 1 := by
  simp [spatialIterEvents, countInfers, List.countP_append, List.countP_map,
    Function.comp_def]

theorem countInfers_tail (d : SubDesc) (sp : SpatialDesc) (off : Nat) :
    countInfers (spatialTailEvents d sp off) = 1 := by
  simp [spatialTailEvents, countInfers, List.countP_append, List.countP_map,
    List.countP_flatMap, Function.comp_def]

theorem countInfers_flat (d : SubDesc) (sp : SpatialDesc) :
    ∀ L : List Nat,
      countInfers (L.flatMap fun k => spatialIterEvents d sp (k * sp.nway))
        = L.length := by
  intro L
  induction L with
  | nil => simp [countInfers]
  | cons x xs ih =>
    simp only [List.flatMap_cons, countInfers_append, ih, countInfers_iter,
      List.length_cons]
    omega

/-- Claim C2: for a spatial body, `unsafe_infer` runs exactly `nway_iters`
full iterations — iteration `k` binding each input `p ∈ params` to
`view(inputs[p.idx], p.dim, k*nway, nway)` and each output `o` to
`view(outputs[o], out_dim, k*nway, nway)` — plus, when `tail_size > 0`,
one tail run that copies the `tail_size` slices at offset
`nway_iters*nway` through the tail buffers; a non-spatial body is
inferred exactly once.  The code trace equals the trace described by the
claim, and the number of `infer()` calls is `nway_iters` plus one for a
non-empty tail. -/
theorem C2_spatial_trace (d : SubDesc) :
    inferTrace d = specInferTrace d ∧
    countInfers (inferTrace d) =
      (match d.spatial with
       | none => 1
       | some sp => sp.nway_iters + (if sp.tail_size = 0 then 0 else 1)) := by
  cases h : d.spatial with
  | none => simp [inferTrace, specInferTrace, countInfers, h]
  | some sp =>
    have hfold := spatialFold_eq d sp sp.nway_iters 0 []
    constructor
    · simp only [inferTrace, specInferTrace, h, hfold, Nat.zero_add,
        List.nil_append]
    · simp only [inferTrace, h, hfold, Nat.zero_add, List.nil_append,
        countInfers_append, countInfers_flat, List.length_range]
      by_cases ht : sp.tail_size = 0
      · simp [ht, countInfers]
      · simp [ht, countInfers_tail]

/-! ### Claim C3 — classification performed by `unpack_closure` -/

theorem unpackFold_eq (d : SubDesc) (portET : Nat → EType) (nc : Bool) :
    ∀ (L : List Nat) (a b c : List Nat),
      L.foldl (unpackStep d portET nc) (a, b, c)
      = (a ++ L.filter (fun c =>
            decide (d.closureET c ≠ portET (d.param_base + c))),
         b ++ L.filter (fun c =>
            decide (d.closureET c = portET (d.param_base + c))
              && d.update_required c && nc),
         c ++ L.filter (fun c =>
            decide (d.closureET c = portET (d.param_base + c))
              && d.update_required c && !nc)) := by
  intro L
  induction L with
  | nil => intro a b c; simp
  | cons x xs ih =>
    intro a b c
    rw [List.foldl_cons]
    by_cases h1 : d.closureET x = portET (d.param_base + x)
    · by_cases h2 : d.update_required x = true
      · by_cases h3 : nc = true
        · have hv : unpackStep d portET nc (a, b, c) x = (a, b ++ [x], c) := by
            unfold unpackStep
            rw [if_neg (not_not_intro h1), if_pos h2, if_pos h3]
          rw [hv, ih]
          simp [List.filter_cons, decide_eq_true h1,
            decide_eq_false (not_not_intro h1), h2, h3]
        · have h3f : nc = false := Bool.eq_false_iff.mpr h3
          have hv : unpackStep d portET nc (a, b, c) x = (a, b, c ++ [x]) := by
            unfold unpackStep
            rw [if_neg (not_not_intro h1), if_pos h2, if_neg h3]
          rw [hv, ih]
          simp [List.filter_cons, decide_eq_true h1,
            decide_eq_false (not_not_intro h1), h2, h3f]
      · have h2f : d.update_required x = false := Bool.eq_false_iff.mpr h2
        have hv : unpackStep d portET nc (a, b, c) x = (a, b, c) := by
          unfold unpackStep
          rw [if_neg (not_not_intro h1), if_neg h2]
        rw [hv, ih]
        simp [List.filter_cons, decide_eq_true h1,
          decide_eq_false (not_not_intro h1), h2f]
    · have hv : unpackStep d portET nc (a, b, c) x = (a ++ [x], b, c) := by
        unfold unpackStep
        rw [if_pos h1]
      rw [hv, ih]
      simp [List.filter_cons, decide_eq_true h1, decide_eq_false h1]

/-- Claim C3: `unpack_closure` classifies each closure index in order —
element-type mismatch with the request's tensor at port `param_base + c`
means unpack (into the port's memory), else `update_required[c]` with
`needs_copy(idx)` means a parallel copy, else `update_required[c]` means a
direct rebind, else nothing — and the unpack kernel is `unpack2` when
both `scales[c]` and `zerops[c]` are present, `unpack1` when only
`scales[c]` is present, plain `unpack` otherwise.  The code's phase lists
(sequential unpacks, parallel copies, immediate rebinds) equal the lists
the claim describes, and the kernel choice matches. -/
theorem C3_unpack_classification (d : SubDesc) (portET : Nat → EType)
    (nc : Bool)
    (hse : d.scalesEmpty = true → ∀ c, d.scalesPresent c = false) :
    unpackClosureLists d portET nc =
      (specUnpackList d portET, specCopyList d portET nc,
       specRebindList d portET nc)
    ∧ ∀ c, kernelFor d c = specKernelFor d c := by
  constructor
  · have h := unpackFold_eq d portET nc (List.range d.closureLen) [] [] []
    simpa [unpackClosureLists, specUnpackList, specCopyList,
      specRebindList] using h
  · intro c
    unfold kernelFor specKernelFor
    cases hs : d.scalesEmpty
    · simp
    · simp [hse hs c]

/-! ### Claim C10 — memory-safety envelope of `gather` -/

theorem all_flatMap_pair {α β : Type} (p : β → Bool) (l : List α)
    (f g : α → β) :
    (l.flatMap fun x => [f x, g x]).all p
      = l.all fun x => p (f x) && p (g x) := by
  induction l with
  | nil => rfl
  | cons x xs ih => simp [ih, Bool.and_assoc]

theorem length_flatMap_pair {α β : Type} (l : List α) (f g : α → β) :
    (l.flatMap fun x => [f x, g x]).length = 2 * l.length := by
  induction l with
  | nil => rfl
  | cons x xs ih =>
    simp only [List.flatMap_cons, List.length_append, ih, List.length_cons]
    simp
    ring

theorem rowWindowOk (i s0 k : Int) (hk : 0 < k) :
    (0 ≤ i * k ∧ i * k + k ≤ s0 * k) ↔ (0 ≤ i ∧ i < s0) := by
  constructor
  · rintro ⟨ha, hb⟩
    have h1 : 0 ≤ i := by nlinarith
    have h2 : i + 1 ≤ s0 := by nlinarith
    exact ⟨h1, by omega⟩
  · rintro ⟨ha, hb⟩
    refine ⟨mul_nonneg ha hk.le, ?_⟩
    have h3 : (i + 1) * k ≤ s0 * k :=
      mul_le_mul_of_nonneg_right (by omega) hk.le
    nlinarith

/-- Claim C10 (amended): `gather` asserts only the shape/type conditions
of `gatherChecks` — never that the index values are in `[0, src_shape[0])`
nor that `dst_shape[1]` is at least the number of rows — and copies
exactly `idx_shape[1]` rows unconditionally; given the asserts and a
non-degenerate row (`src_shape[1] > 0`), every access is in bounds iff
every index value lies in `[0, src_shape[0])` and `idx_shape[1] ≤
dst_shape[0] * dst_shape[1]` (the original claim's `dst_shape[1] ≥ N`
both ignores `dst_shape[0]`, which the asserts leave unconstrained, and
fails when `dst_shape[0] ≠ 1`). -/
theorem C10_gather_bounds (g : GatherArgs)
    (hck : gatherChecks g = true)
    (hpos : 0 < g.srcShape.getD 1 0) :
    (gatherAccesses g).length = 2 * g.idxShape.getD 1 0 ∧
    (gatherInBoundsB g = true ↔
      ((∀ r < g.idxShape.getD 1 0,
          0 ≤ g.idxData r ∧ g.idxData r < (g.srcShape.getD 0 0 : Int)) ∧
       g.idxShape.getD 1 0 ≤
         g.dstShape.getD 0 0 * g.dstShape.getD 1 0)) := by
  simp only [gatherChecks, Bool.and_eq_true, Bool.or_eq_true,
    beq_iff_eq] at hck
  obtain ⟨⟨⟨⟨⟨⟨⟨hidt, hft⟩, hsd⟩, hil⟩, hi0⟩, hsl⟩, hdl⟩, hs1⟩ := hck
  have hesz : 0 < etSize g.srcType := by
    rcases hft with h | h <;> simp [h, etSize]
  have hkpos : (0 : Int) <
      ((g.srcShape.getD 1 0 * etSize g.srcType : Nat) : Int) := by
    exact_mod_cast Nat.mul_pos hpos hesz
  constructor
  · unfold gatherAccesses
    rw [length_flatMap_pair, List.length_range]
  · unfold gatherInBoundsB gatherAccesses
    rw [all_flatMap_pair, List.all_eq_true]
    have hrow : ∀ r : Nat,
        ((accessOkB (srcBytes g)
            { isWrite := false
              start := ((g.srcShape.getD 1 0 : Int) * g.idxData r) *
                (etSize g.srcType : Int)
              len := g.srcShape.getD 1 0 * etSize g.srcType } &&
          accessOkB (dstBytes g)
            { isWrite := true
              start := ((r * g.dstShape.getD 2 0 * etSize g.dstType : Nat) :
                Int)
              len := g.srcShape.getD 1 0 * etSize g.srcType }) = true)
        ↔ ((0 ≤ g.idxData r ∧ g.idxData r < (g.srcShape.getD 0 0 : Int)) ∧
           r + 1 ≤ g.dstShape.getD 0 0 * g.dstShape.getD 1 0) := by
      intro r
      rw [Bool.and_eq_true]
      have hlen : (g.srcShape.getD 1 0 * etSize g.srcType == 0) = false :=
        beq_eq_false_iff_ne.mpr (Nat.mul_pos hpos hesz).ne'
      constructor
      · rintro ⟨ha, hb⟩
        unfold accessOkB at ha hb
        rw [hlen, Bool.false_or, Bool.and_eq_true, decide_eq_true_eq,
          decide_eq_true_eq] at ha hb
        constructor
        · refine (rowWindowOk (g.idxData r) (g.srcShape.getD 0 0)
            ((g.srcShape.getD 1 0 * etSize g.srcType : Nat) : Int)
            hkpos).mp ⟨?_, ?_⟩
          · have := ha.1
            push_cast at this ⊢
            nlinarith [this]
          · have h2 := ha.2
            unfold srcBytes at h2
            push_cast at h2 ⊢
            nlinarith [h2]
        · have h2 := hb.2
          unfold dstBytes at h2
          have := (rowWindowOk (r : Int)
            ((g.dstShape.getD 0 0 * g.dstShape.getD 1 0 : Nat) : Int)
            ((g.srcShape.getD 1 0 * etSize g.srcType : Nat) : Int)
            hkpos).mp ⟨by positivity, ?_⟩
          · have h3 := this.2
            exact_mod_cast h3
          · rw [← hsd, ← hs1] at h2
            push_cast at h2 ⊢
            nlinarith [h2]
      · rintro ⟨ha, hb⟩
        have hra := (rowWindowOk (g.idxData r) (g.srcShape.getD 0 0)
          ((g.srcShape.getD 1 0 * etSize g.srcType : Nat) : Int)
          hkpos).mpr ha
        have hwb := (rowWindowOk (r : Int)
          ((g.dstShape.getD 0 0 * g.dstShape.getD 1 0 : Nat) : Int)
          ((g.srcShape.getD 1 0 * etSize g.srcType : Nat) : Int)
          hkpos).mpr ⟨by positivity, by exact_mod_cast Nat.lt_of_succ_le hb⟩
        constructor
        · unfold accessOkB
          rw [hlen, Bool.false_or, Bool.and_eq_true, decide_eq_true_eq,
            decide_eq_true_eq]
          refine ⟨?_, ?_⟩
          · have := hra.1
            push_cast at this ⊢
            nlinarith [this]
          · have := hra.2
            unfold srcBytes
            push_cast at this ⊢
            ring_nf at this ⊢
            linarith [this]
        · unfold accessOkB
          rw [hlen, Bool.false_or, Bool.and_eq_true, decide_eq_true_eq,
            decide_eq_true_eq]
          refine ⟨by positivity, ?_⟩
          have := hwb.2
          unfold dstBytes
          rw [← hsd, ← hs1]
          push_cast at this ⊢
          ring_nf at this ⊢
          linarith [this]
    constructor
    · intro h
      have hall : ∀ r < g.idxShape.getD 1 0,
          (0 ≤ g.idxData r ∧ g.idxData r < (g.srcShape.getD 0 0 : Int)) ∧
          r + 1 ≤ g.dstShape.getD 0 0 * g.dstShape.getD 1 0 := by
        intro r hr
        exact (hrow r).mp (h r (List.mem_range.mpr hr))
      refine ⟨fun r hr => (hall r hr).1, ?_⟩
      cases hn : g.idxShape.getD 1 0 with
      | zero => omega
      | succ m =>
        have := (hall m (by omega)).2
        omega
    · rintro ⟨ha, hb⟩ r hr
      rw [List.mem_range] at hr
      exact (hrow r).mpr ⟨ha r hr, by omega⟩


/-- Claim C10 counterexample: the claimed equivalence "in bounds iff index
values in range and `dst_shape[1] ≥ N`" is false at `gatherCx`: the
asserts pass, the index values are in range, every access is in bounds,
but `dst_shape[1] = 1 < 2 = N`. -/
theorem C10_counterexample :
    gatherChecks gatherCx = true ∧
    gatherInBoundsB gatherCx = true ∧
    (∀ r < gatherCx.idxShape.getD 1 0,
      0 ≤ gatherCx.idxData r ∧
        gatherCx.idxData r < (gatherCx.srcShape.getD 0 0 : Int)) ∧
    ¬ (gatherCx.dstShape.getD 1 0 ≥ gatherCx.idxShape.getD 1 0) := by
  refine ⟨by decide, by decide, by decide, by decide⟩

/-- Witness for `C10_gather_bounds` at `gatherCx`. -/
theorem C10_gather_bounds_witness :
    (gatherAccesses gatherCx).length = 2 * gatherCx.idxShape.getD 1 0 ∧
    (gatherInBoundsB gatherCx = true ↔
      ((∀ r < gatherCx.idxShape.getD 1 0,
          0 ≤ gatherCx.idxData r ∧
            gatherCx.idxData r < (gatherCx.srcShape.getD 0 0 : Int)) ∧
       gatherCx.idxShape.getD 1 0 ≤
         gatherCx.dstShape.getD 0 0 * gatherCx.dstShape.getD 1 0)) :=
  C10_gather_bounds gatherCx (by decide) (by decide)

/-! ### Claim C9 — triple `(2,0,1)` transpose of packed `i4` tensors -/

theorem lo4_elem4 (d : Nat → Nat) (n : Nat) :
    lo4 (elem4 d n) = elem4 d n := by
  unfold elem4 lo4 hi4
  split <;> omega

theorem tread4b_elem (d : Nat → Nat) (i j cols : Nat) (hc : cols % 2 = 0) :
    tread4b d i j cols = elem4 d (i * cols + j) := by
  obtain ⟨m, hm⟩ : ∃ m, i * cols = 2 * m := by
    refine ⟨i * (cols / 2), ?_⟩
    have h2 : cols = 2 * (cols / 2) := by omega
    calc i * cols = i * (2 * (cols / 2)) := by rw [← h2]
      _ = 2 * (i * (cols / 2)) := by ring
  simp only [tread4b, elem4]
  rw [hm]
  rw [show 2 * m / 2 + j / 2 = (2 * m + j) / 2 from by omega,
    show (2 * m + j) % 2 = j % 2 from by omega]

theorem elem4_twrite_hit (d : Nat → Nat) (v r c cols : Nat)
    (hc : cols % 2 = 0) :
    elem4 (twrite4b d v r c cols) (r * cols + c) = lo4 v := by
  obtain ⟨m, hm⟩ : ∃ m, r * cols = 2 * m := by
    refine ⟨r * (cols / 2), ?_⟩
    have h2 : cols = 2 * (cols / 2) := by omega
    calc r * cols = r * (2 * (cols / 2)) := by rw [← h2]
      _ = 2 * (r * (cols / 2)) := by ring
  simp only [twrite4b, elem4]
  rw [hm]
  rw [if_pos (show (2 * m + c) / 2 = 2 * m / 2 + c / 2 from by omega),
    show (2 * m + c) % 2 = c % 2 from by omega]
  by_cases hc2 : c % 2 = 0
  · rw [if_pos hc2, if_pos hc2]
    simp only [lo4, hi4]
    omega
  · rw [if_neg hc2, if_neg hc2]
    simp only [lo4, hi4]
    omega

theorem elem4_twrite_miss (d : Nat → Nat) (v r c cols n : Nat)
    (hc : cols % 2 = 0) (hn : n ≠ r * cols + c) :
    elem4 (twrite4b d v r c cols) n = elem4 d n := by
  obtain ⟨m, hm⟩ : ∃ m, r * cols = 2 * m := by
    refine ⟨r * (cols / 2), ?_⟩
    have h2 : cols = 2 * (cols / 2) := by omega
    calc r * cols = r * (2 * (cols / 2)) := by rw [← h2]
      _ = 2 * (r * (cols / 2)) := by ring
  simp only [twrite4b, elem4]
  rw [hm] at hn ⊢
  by_cases hb : n / 2 = 2 * m / 2 + c / 2
  · rw [if_pos hb]
    have hpar : n % 2 ≠ c % 2 := by omega
    by_cases hp : n % 2 = 0
    · rw [if_pos hp, if_pos hp, if_neg (show ¬c % 2 = 0 by omega), hb]
      simp only [lo4, hi4]
      omega
    · rw [if_neg hp, if_neg hp, if_pos (show c % 2 = 0 by omega), hb]
      simp only [lo4, hi4]
      omega
  · rw [if_neg hb]

theorem innerFold_hit (f : Nat → Nat) (i rows : Nat) (hrows : rows % 2 = 0)
    (hi : i < rows) :
    ∀ (cnt : Nat) (d : Nat → Nat) (j0 : Nat), j0 < cnt →
      elem4 ((List.range cnt).foldl
          (fun a j => twrite4b a (f j) j i rows) d)
        (j0 * rows + i)
      = lo4 (f j0) := by
  intro cnt
  induction cnt with
  | zero => intro d j0 h; omega
  | succ cnt ih =>
    intro d j0 hj0
    rw [List.range_succ, List.foldl_append, List.foldl_cons, List.foldl_nil]
    by_cases he : j0 = cnt
    · subst he
      exact elem4_twrite_hit _ _ _ _ _ hrows
    · have hne : j0 * rows + i ≠ cnt * rows + i := by
        intro heq
        have h1 : j0 * rows = cnt * rows := by omega
        exact he (Nat.eq_of_mul_eq_mul_right (by omega) h1)
      rw [elem4_twrite_miss _ _ _ _ _ _ hrows hne]
      exact ih d j0 (by omega)

theorem innerFold_miss (f : Nat → Nat) (i rows : Nat) (hrows : rows % 2 = 0) :
    ∀ (cnt : Nat) (d : Nat → Nat) (n : Nat),
      (∀ j, j < cnt → n ≠ j * rows + i) →
      elem4 ((List.range cnt).foldl
          (fun a j => twrite4b a (f j) j i rows) d) n
      = elem4 d n := by
  intro cnt
  induction cnt with
  | zero => intro d n _; rfl
  | succ cnt ih =>
    intro d n hmiss
    rw [List.range_succ, List.foldl_append, List.foldl_cons, List.foldl_nil]
    rw [elem4_twrite_miss _ _ _ _ _ _ hrows (hmiss cnt (by omega))]
    exact ih d n fun j hj => hmiss j (by omega)

theorem outerFold_hit (g : Nat → Nat → Nat) (rows cols : Nat)
    (hrows : rows % 2 = 0) :
    ∀ (cntI : Nat), cntI ≤ rows →
      ∀ (d : Nat → Nat) (i0 j0 : Nat), i0 < cntI → j0 < cols →
      elem4 ((List.range cntI).foldl
          (fun acc i => (List.range cols).foldl
            (fun a j => twrite4b a (g i j) j i rows) acc) d)
        (j0 * rows + i0)
      = lo4 (g i0 j0) := by
  intro cntI
  induction cntI with
  | zero => intro _ d i0 j0 h _; omega
  | succ cntI ih =>
    intro hle d i0 j0 hi0 hj0
    rw [List.range_succ, List.foldl_append, List.foldl_cons, List.foldl_nil]
    by_cases he : i0 = cntI
    · subst he
      exact innerFold_hit (g i0) i0 rows hrows (by omega) cols _ j0 hj0
    · have hmiss : ∀ j, j < cols → j0 * rows + i0 ≠ j * rows + cntI := by
        intro j _ heq
        have h1 : (j0 * rows + i0) % rows = i0 := by
          rw [Nat.mul_comm, Nat.mul_add_mod]
          exact Nat.mod_eq_of_lt (by omega)
        have h2 : (j * rows + cntI) % rows = cntI := by
          rw [Nat.mul_comm, Nat.mul_add_mod]
          exact Nat.mod_eq_of_lt (by omega)
        rw [heq, h2] at h1
        exact he h1.symm
      rw [innerFold_miss (g cntI) cntI rows hrows cols _ _ hmiss]
      exact ih (by omega) d i0 j0 (by omega) hj0

/-- One application of `transpose` moves the element at flattened position
`(i, j)` of the `[A*B, C]` view to position `(j, i)` of the `[C, A*B]`
view, provided both the read stride `C` and the write stride `A*B` are
even (otherwise the nibble addressing of `tread_4b`/`twrite_4b`
misaligns). -/
theorem transposeI4_elem (t : I4Tensor)
    (hAB : t.dimA * t.dimB % 2 = 0) (hC : t.dimC % 2 = 0)
    (i j : Nat) (hi : i < t.dimA * t.dimB) (hj : j < t.dimC) :
    elem4 (transposeI4 t).data (j * (t.dimA * t.dimB) + i)
      = elem4 t.data (i * t.dimC + j) := by
  have h := outerFold_hit (fun i j => tread4b t.data i j t.dimC)
    (t.dimA * t.dimB) t.dimC hAB (t.dimA * t.dimB) le_rfl
    (fun _ => 0) i j hi hj
  simp only [transposeI4]
  rw [h]
  simp only [tread4b_elem t.data i j t.dimC hC, lo4_elem4]

/-- Claim C9 (amended): three successive applications of `transpose`
(each `[A,B,C] → [C,A,B]`) restore both the shape and every packed 4-bit
element, **provided the three dimensions are all even**.  (For odd
dimensions the `r * COLS / 2` byte addressing of `tread_4b`/`twrite_4b`
misaligns rows that start at an odd nibble — see `C9_counterexample`.) -/
theorem C9_transpose_triple (t : I4Tensor)
    (hA : t.dimA % 2 = 0) (hB : t.dimB % 2 = 0) (hC : t.dimC % 2 = 0)
    (a b c : Nat) (ha : a < t.dimA) (hb : b < t.dimB) (hc : c < t.dimC) :
    ((transposeI4 (transposeI4 (transposeI4 t))).dimA = t.dimA ∧
     (transposeI4 (transposeI4 (transposeI4 t))).dimB = t.dimB ∧
     (transposeI4 (transposeI4 (transposeI4 t))).dimC = t.dimC) ∧
    elemAt (transposeI4 (transposeI4 (transposeI4 t))) a b c
      = elemAt t a b c := by
  refine ⟨⟨rfl, rfl, rfl⟩, ?_⟩
  have e1 : Even (t.dimB * t.dimC) :=
    Nat.even_mul.mpr (Or.inl (Nat.even_iff.mpr hB))
  have e2 : Even (t.dimC * t.dimA) :=
    Nat.even_mul.mpr (Or.inl (Nat.even_iff.mpr hC))
  have e3 : Even (t.dimA * t.dimB) :=
    Nat.even_mul.mpr (Or.inl (Nat.even_iff.mpr hA))
  have hbc : b * t.dimC + c < t.dimB * t.dimC := by
    have h : (b + 1) * t.dimC ≤ t.dimB * t.dimC :=
      Nat.mul_le_mul_right _ (by omega)
    have hx : (b + 1) * t.dimC = b * t.dimC + t.dimC := by ring
    omega
  have hca : c * t.dimA + a < t.dimC * t.dimA := by
    have h : (c + 1) * t.dimA ≤ t.dimC * t.dimA :=
      Nat.mul_le_mul_right _ (by omega)
    have hx : (c + 1) * t.dimA = c * t.dimA + t.dimA := by ring
    omega
  have hab : a * t.dimB + b < t.dimA * t.dimB := by
    have h : (a + 1) * t.dimB ≤ t.dimA * t.dimB :=
      Nat.mul_le_mul_right _ (by omega)
    have hx : (a + 1) * t.dimB = a * t.dimB + t.dimB := by ring
    omega
  have s3 : elem4 (transposeI4 (transposeI4 (transposeI4 t))).data
      (a * (t.dimB * t.dimC) + (b * t.dimC + c))
      = elem4 (transposeI4 (transposeI4 t)).data
        ((b * t.dimC + c) * t.dimA + a) :=
    transposeI4_elem (transposeI4 (transposeI4 t)) (Nat.even_iff.mp e1) hA
      (b * t.dimC + c) a hbc ha
  have s2 : elem4 (transposeI4 (transposeI4 t)).data
      (b * (t.dimC * t.dimA) + (c * t.dimA + a))
      = elem4 (transposeI4 t).data ((c * t.dimA + a) * t.dimB + b) :=
    transposeI4_elem (transposeI4 t) (Nat.even_iff.mp e2) hB
      (c * t.dimA + a) b hca hb
  have s1 : elem4 (transposeI4 t).data
      (c * (t.dimA * t.dimB) + (a * t.dimB + b))
      = elem4 t.data ((a * t.dimB + b) * t.dimC + c) :=
    transposeI4_elem t (Nat.even_iff.mp e3) hC (a * t.dimB + b) c hab hc
  show elem4 (transposeI4 (transposeI4 (transposeI4 t))).data
      ((a * t.dimB + b) * t.dimC + c)
    = elem4 t.data ((a * t.dimB + b) * t.dimC + c)
  rw [show (a * t.dimB + b) * t.dimC + c
      = a * (t.dimB * t.dimC) + (b * t.dimC + c) from by ring, s3,
    show (b * t.dimC + c) * t.dimA + a
      = b * (t.dimC * t.dimA) + (c * t.dimA + a) from by ring, s2,
    show (c * t.dimA + a) * t.dimB + b
      = c * (t.dimA * t.dimB) + (a * t.dimB + b) from by ring, s1]
  congr 1
  ring


/-- Claim C9 counterexample: on the `[1,1,3]` tensor with elements
`1, 2, 3`, three successive transposes restore the shape but element
`(0,0,0)` comes back as `2` instead of `1`: the odd row stride makes
`twrite_4b` land consecutive elements on the same nibble. -/
theorem C9_counterexample :
    (transposeI4 (transposeI4 (transposeI4 transposeCx))).dimA = 1 ∧
    (transposeI4 (transposeI4 (transposeI4 transposeCx))).dimB = 1 ∧
    (transposeI4 (transposeI4 (transposeI4 transposeCx))).dimC = 3 ∧
    elemAt (transposeI4 (transposeI4 (transposeI4 transposeCx))) 0 0 0 = 2 ∧
    elemAt transposeCx 0 0 0 = 1 := by
  refine ⟨rfl, rfl, rfl, ?_, ?_⟩ <;> decide


/-- Witness for `C9_transpose_triple` at the even-shaped `transposeWx`. -/
theorem C9_transpose_triple_witness :
    ((transposeI4 (transposeI4 (transposeI4 transposeWx))).dimA
        = transposeWx.dimA ∧
     (transposeI4 (transposeI4 (transposeI4 transposeWx))).dimB
        = transposeWx.dimB ∧
     (transposeI4 (transposeI4 (transposeI4 transposeWx))).dimC
        = transposeWx.dimC) ∧
    elemAt (transposeI4 (transposeI4 (transposeI4 transposeWx))) 1 1 1
      = elemAt transposeWx 1 1 1 :=
  C9_transpose_triple transposeWx (by decide) (by decide) (by decide)
    1 1 1 (by decide) (by decide) (by decide)

/-! ### Claims C4 and C5 — wiring behaviour of `connect_subrequests` -/

theorem wireStep_subreq (env : WEnv) (st : WState) (l : WLink)
    (st1 : WState) (h : wireStep env st l = Except.ok st1) :
    st1.subreq = st.subreq := by
  unfold wireStep at h
  split_ifs at h <;> cases h <;> rfl

theorem wireStep_preserve (env : WEnv) (st : WState) (l : WLink)
    (st1 : WState) (q : Nat × Nat) (h : wireStep env st l = Except.ok st1)
    (hq : (l.toSub, l.toPort) ≠ q) : st1.inBind q = st.inBind q := by
  unfold wireStep at h
  split_ifs at h <;> cases h <;> simp [Ne.symm hq]

theorem wireAll_subreq (env : WEnv) :
    ∀ (ls : List WLink) (st st' : WState),
      wireAll env ls st = Except.ok st' → st'.subreq = st.subreq := by
  intro ls
  induction ls with
  | nil => intro st st' h; cases h; rfl
  | cons l ls ih =>
    intro st st' h
    unfold wireAll at h
    cases hs : wireStep env st l with
    | error e => rw [hs] at h; cases h
    | ok st1 =>
      rw [hs] at h
      rw [ih st1 st' h, wireStep_subreq env st l st1 hs]

theorem wireAll_preserve (env : WEnv) :
    ∀ (ls : List WLink) (st st' : WState) (q : Nat × Nat),
      wireAll env ls st = Except.ok st' →
      (∀ x ∈ ls, (x.toSub, x.toPort) ≠ q) →
      st'.inBind q = st.inBind q := by
  intro ls
  induction ls with
  | nil => intro st st' q h _; cases h; rfl
  | cons l ls ih =>
    intro st st' q h hq
    unfold wireAll at h
    cases hs : wireStep env st l with
    | error e => rw [hs] at h; cases h
    | ok st1 =>
      rw [hs] at h
      rw [ih st1 st' q h fun x hx => hq x (List.mem_cons_of_mem l hx),
        wireStep_preserve env st l st1 q hs (hq l (List.mem_cons_self l ls))]

/-- Claim C5: after `connect_subrequests` completes, a link between two
normal subgraphs whose consumer request exists leaves the consumer input
port referencing the very tensor object of the producer's output port,
and a funcall-to-normal link leaves it referencing the preallocated
`m_funcall_result` tensor for `(from_sub, from_port)`. -/
theorem C5_wiring_binds (env : WEnv) (links : List WLink)
    (st st' : WState) (l : WLink)
    (hrun : wireAll env links st = Except.ok st')
    (hmem : l ∈ links)
    (hnodup : (links.map fun k => (k.toSub, k.toPort)).Nodup) :
    ((env.replacedBy l.fromSub = none) → (env.replacedBy l.toSub = none) →
      (st.subreq l.toSub).isSome = true →
      st'.inBind (l.toSub, l.toPort)
        = some (env.outTensor (l.fromSub, l.fromPort)))
    ∧ ((env.replacedBy l.fromSub).isSome = true →
      (env.replacedBy l.toSub = none) →
      st'.inBind (l.toSub, l.toPort)
        = some (env.funcallResult (l.fromSub, l.fromPort))) := by
  induction links generalizing st with
  | nil => cases hmem
  | cons x xs ih =>
    unfold wireAll at hrun
    cases hs : wireStep env st x with
    | error e => rw [hs] at hrun; cases hrun
    | ok st1 =>
      rw [hs] at hrun
      rcases List.mem_cons.mp hmem with rfl | hmem2
      · have hkeys : ∀ y ∈ xs, (y.toSub, y.toPort) ≠ (l.toSub, l.toPort) := by
          intro y hy
          have h1 := (List.nodup_cons.mp hnodup).1
          intro he
          exact h1 (List.mem_map.mpr ⟨y, hy, he⟩)
        have hpres := wireAll_preserve env xs st1 st' _ hrun hkeys
        constructor
        · intro hf ht hsome
          unfold wireStep at hs
          rw [hf, ht] at hs
          obtain ⟨y, hy⟩ := Option.isSome_iff_exists.mp hsome
          rw [hy] at hs
          simp only [Option.isSome_none, Option.isSome_some,
            Bool.false_and, Bool.and_false, Bool.and_true,
            Option.isNone_some, Bool.false_eq_true, if_false] at hs
          split_ifs at hs with h4
          all_goals cases hs
          all_goals refine hpres.trans ?_
          all_goals simp
        · intro hf ht
          unfold wireStep at hs
          rw [ht] at hs
          obtain ⟨z, hz⟩ := Option.isSome_iff_exists.mp hf
          rw [hz] at hs
          simp only [Option.isSome_none, Option.isSome_some,
            Bool.true_and, Bool.and_false, Bool.false_eq_true,
            if_false] at hs
          split_ifs at hs with h2
          all_goals cases hs
          all_goals refine hpres.trans ?_
          all_goals simp
      · have hsub : st1.subreq = st.subreq := wireStep_subreq env st x st1 hs
        have := ih st1 hrun hmem2 (List.nodup_cons.mp hnodup).2
        rw [hsub] at this
        exact this

/-- Claim C4 (amended): for a link **between two non-function-call
subgraphs**, wiring fails fatally — with a diagnostic naming both
endpoint subgraphs — when the producer request was optimized out while
the consumer request exists, and merely warns and skips the link when the
consumer request was optimized out.  (The original claim, quantified over
all links, fails: when the consumer is a function call the optimized-out
producer is silently skipped, and when the producer is a function call a
missing consumer is a null dereference, not a warning — see
`C4_counterexample`.) -/
theorem C4_wiring_errors (env : WEnv) (st : WState) (l : WLink)
    (rest : List WLink)
    (hf : env.replacedBy l.fromSub = none)
    (ht : env.replacedBy l.toSub = none) :
    wireAll env (l :: rest) st =
      (if (st.subreq l.fromSub).isNone ∧ (st.subreq l.toSub).isSome then
        Except.error (WErr.fatalOut l.fromSub l.toSub)
      else if (st.subreq l.toSub).isNone then
        wireAll env rest
          { st with warnings := st.warnings ++ [(l.fromSub, l.toSub)] }
      else
        wireAll env rest
          { st with inBind := fun q =>
              if q = (l.toSub, l.toPort) then
                some (env.outTensor (l.fromSub, l.fromPort))
              else st.inBind q }) := by
  show (match wireStep env st l with
        | Except.error e => Except.error e
        | Except.ok st1 => wireAll env rest st1) = _
  unfold wireStep
  rw [hf, ht]
  cases hfrom : st.subreq l.fromSub <;> cases hto : st.subreq l.toSub <;>
    simp




/-- Claim C4 counterexample: the producer request of `wlinkCx` was
optimized out and its consumer request exists, yet wiring completes
without any error (and without even a warning), because the consumer is
a function call and the link is skipped before the optimized-out check:
the claimed fatal failure does not happen. -/
theorem C4_counterexample :
    wireAll wenvCx [wlinkCx] wstCx = Except.ok wstCx ∧
    wstCx.subreq wlinkCx.fromSub = none ∧
    wstCx.subreq wlinkCx.toSub = some 5 ∧
    wenvCx.replacedBy wlinkCx.fromSub = none ∧
    wstCx.warnings = [] :=
  ⟨rfl, rfl, rfl, rfl, rfl⟩

/-- Witness for `C4_wiring_errors` on a normal-to-normal link with an
optimized-out producer: the wiring run returns the fatal error naming
both endpoints. -/
theorem C4_wiring_errors_witness :
    wireAll
      { replacedBy := fun _ => none
        funcallResult := fun _ => 0
        outTensor := fun _ => 0 }
      [{ toSub := 1, toPort := 0, fromSub := 0, fromPort := 0 }]
      wstCx =
      (if (wstCx.subreq 0).isNone ∧ (wstCx.subreq 1).isSome then
        Except.error (WErr.fatalOut 0 1)
      else if (wstCx.subreq 1).isNone then
        wireAll { replacedBy := fun _ => none
                  funcallResult := fun _ => 0
                  outTensor := fun _ => 0 } []
          { wstCx with warnings := wstCx.warnings ++ [(0, 1)] }
      else
        wireAll { replacedBy := fun _ => none
                  funcallResult := fun _ => 0
                  outTensor := fun _ => 0 } []
          { wstCx with inBind := fun q =>
              if q = (1, 0) then some 0 else wstCx.inBind q }) :=
  C4_wiring_errors _ wstCx _ [] rfl rfl





/-- Witness for `C5_wiring_binds` at the concrete one-link pool. -/
theorem C5_wiring_binds_witness :
    ((wenvW.replacedBy wlinkW.fromSub = none) →
      (wenvW.replacedBy wlinkW.toSub = none) →
      (wstW.subreq wlinkW.toSub).isSome = true →
      wstW2.inBind (wlinkW.toSub, wlinkW.toPort)
        = some (wenvW.outTensor (wlinkW.fromSub, wlinkW.fromPort)))
    ∧ ((wenvW.replacedBy wlinkW.fromSub).isSome = true →
      (wenvW.replacedBy wlinkW.toSub = none) →
      wstW2.inBind (wlinkW.toSub, wlinkW.toPort)
        = some (wenvW.funcallResult (wlinkW.fromSub, wlinkW.fromPort))) :=
  C5_wiring_binds wenvW [wlinkW] wstW wstW2 wlinkW rfl
    (List.mem_singleton.mpr rfl) (by simp)

/-! ### Claims C1, C6 and C8 — failover loop, pipeline swap, cancel -/

theorem runLoop_spec (env : FoEnv) (idx : Nat) :
    ∀ (K a fuel : Nat) (fo : Bool) (st : FoState),
      (∀ j, j < K → env.throws (a + j) = true) →
      env.throws (a + K) = false →
      K < fuel →
      st.subreqDev (realOf env idx)
        = env.deviceAt (realOf env idx) (st.devPos (realOf env idx)) →
      (∀ j, env.compileAdvance (realOf env idx) j = 0) →
      ((∃ st2 fo2, runLoop env idx fuel a fo st = LoopResult.ok st2 fo2) ↔
        (∀ j, j < K → env.compileOk (realOf env idx) (a + j) = true))
      ∧ ((∀ j, j < K → env.compileOk (realOf env idx) (a + j) = true) →
         ∃ st2, runLoop env idx fuel a fo st
              = LoopResult.ok st2 (fo || decide (0 < K)) ∧
           (∀ d, st2.devPos d
              = st.devPos d + (if d = idx then K else 0)) ∧
           st2.recreates = st.recreates ++ List.replicate K idx) := by
  intro K
  induction K with
  | zero =>
    intro a fuel fo st hth hK hfuel hdev hadv
    cases fuel with
    | zero => omega
    | succ f =>
      have hta : env.throws a = false := by simpa using hK
      have hstep : runLoop env idx (f + 1) a fo st
          = LoopResult.ok
              (if env.usePipelining && env.pipelineNext idx then
                swapAt (realOf env idx) st
              else st) fo := by
        simp only [runLoop]
        rw [if_neg (not_not_intro hdev), hta,
          if_neg Bool.false_ne_true]
      constructor
      · rw [hstep]
        constructor
        · intro _ j hj
          omega
        · intro _
          exact ⟨_, fo, rfl⟩
      · intro _
        refine ⟨(if env.usePipelining && env.pipelineNext idx then
            swapAt (realOf env idx) st else st), ?_, ?_, ?_⟩
        · rw [hstep]
          simp
        · intro d
          have hdp : (if env.usePipelining && env.pipelineNext idx then
              swapAt (realOf env idx) st else st).devPos d = st.devPos d := by
            split <;> rfl
          rw [hdp]
          split <;> omega
        · have hr : (if env.usePipelining && env.pipelineNext idx then
              swapAt (realOf env idx) st else st).recreates
              = st.recreates := by
            split <;> rfl
          rw [hr]
          simp
  | succ K ih =>
    intro a fuel fo st hth hK hfuel hdev hadv
    cases fuel with
    | zero => omega
    | succ f =>
      have hta : env.throws a = true := by
        have := hth 0 (by omega)
        simpa using this
      cases hcmp : env.compileOk (realOf env idx) a with
      | false =>
        have hstep : runLoop env idx (f + 1) a fo st = LoopResult.err := by
          simp only [runLoop]
          rw [if_neg (not_not_intro hdev), hta, if_pos rfl, hcmp,
            if_neg Bool.false_ne_true]
        constructor
        · constructor
          · rintro ⟨st2, fo2, h2⟩
            rw [hstep] at h2
            cases h2
          · intro hall
            have h0 : env.compileOk (realOf env idx) a = true := by
              simpa using hall 0 (by omega)
            rw [h0] at hcmp
            cases hcmp
        · intro hall
          have h0 : env.compileOk (realOf env idx) a = true := by
            simpa using hall 0 (by omega)
          rw [h0] at hcmp
          cases hcmp
      | true =>
        -- the state after device_it++, compile (no internal advance) and
        -- recreate_subrequests(idx)
        have hnext : runLoop env idx (f + 1) a fo st
            = runLoop env idx f (a + 1) true
                (recreateSub env idx
                  { st with devPos := fun d =>
                      if d = realOf env idx then
                        (if d = idx then st.devPos d + 1 else st.devPos d) +
                          env.compileAdvance (realOf env idx) a
                      else
                        (if d = idx then st.devPos d + 1
                         else st.devPos d) }) := by
          simp only [runLoop]
          rw [if_neg (not_not_intro hdev), hta, if_pos rfl, hcmp,
            if_pos rfl]
        set stMid := recreateSub env idx
          { st with devPos := fun d =>
              if d = realOf env idx then
                (if d = idx then st.devPos d + 1 else st.devPos d) +
                  env.compileAdvance (realOf env idx) a
              else
                (if d = idx then st.devPos d + 1 else st.devPos d) } with hmid
        have hdpMid : ∀ d, stMid.devPos d
            = st.devPos d + (if d = idx then 1 else 0) := by
          intro d
          rw [hmid]
          simp only [recreateSub]
          rw [hadv a]
          split_ifs <;> omega
        have hdevMid : stMid.subreqDev (realOf env idx)
            = env.deviceAt (realOf env idx)
                (stMid.devPos (realOf env idx)) := by
          rw [hmid]
          simp only [recreateSub]
          by_cases hri : realOf env idx = idx
          · simp [hri]
          · simp [hri, hadv a, hdev]
        have hrecMid : stMid.recreates = st.recreates ++ [idx] := by
          rw [hmid]
          simp only [recreateSub]
        have hth2 : ∀ j, j < K → env.throws (a + 1 + j) = true := by
          intro j hj
          have := hth (j + 1) (by omega)
          rwa [show a + (j + 1) = a + 1 + j from by omega] at this
        have hK2 : env.throws (a + 1 + K) = false := by
          rwa [show a + 1 + K = a + (K + 1) from by omega]
        obtain ⟨ih_iff, ih_det⟩ := ih (a + 1) f true stMid hth2 hK2
          (by omega) hdevMid hadv
        constructor
        · rw [hnext]
          rw [ih_iff]
          constructor
          · intro hall j hj
            cases j with
            | zero =>
              rw [show a + 0 = a from rfl]
              exact hcmp
            | succ j =>
              have := hall j (by omega)
              rwa [show a + 1 + j = a + (j + 1) from by omega] at this
          · intro hall j hj
            have := hall (j + 1) (by omega)
            rwa [show a + (j + 1) = a + 1 + j from by omega] at this
        · intro hall
          obtain ⟨st2, heq, hdp2, hrec2⟩ := ih_det (by
            intro j hj
            have := hall (j + 1) (by omega)
            rwa [show a + (j + 1) = a + 1 + j from by omega] at this)
          refine ⟨st2, ?_, ?_, ?_⟩
          · rw [hnext, heq]
            simp
          · intro d
            have := hdp2 d
            rw [hdpMid d] at this
            rw [this]
            split <;> omega
          · rw [hrec2, hrecMid, List.append_assoc]
            simp [List.replicate_succ]

/-- Claim C1 (amended): `run_subrequest_for_success(idx, failover)`
catches every exception raised while executing the subgraph, advances the
device iterator of the **call-site descriptor `idx`**
(`comp_model_desc.device_it++`; this is body `real(idx)`'s iterator only
when `idx` is its own body), asks the compile collaborator to recompile
body `real(idx)`, recreates the subrequest(s) and re-runs the wiring once
per failure, and retries; an exception propagates to the caller iff the
collaborator reports that no device is left. -/
theorem C1_failover (env : FoEnv) (idx K fuel : Nat) (st : FoState)
    (hth : ∀ j, j < K → env.throws j = true)
    (hK : env.throws K = false)
    (hfuel : K < fuel)
    (hdev : st.subreqDev (realOf env idx)
      = env.deviceAt (realOf env idx) (st.devPos (realOf env idx)))
    (hadv : ∀ j, env.compileAdvance (realOf env idx) j = 0) :
    ((∃ st2 fo2, runLoop env idx fuel 0 false st = LoopResult.ok st2 fo2) ↔
      (∀ j, j < K → env.compileOk (realOf env idx) j = true))
    ∧ ((∀ j, j < K → env.compileOk (realOf env idx) j = true) →
       ∃ st2, runLoop env idx fuel 0 false st
            = LoopResult.ok st2 (decide (0 < K)) ∧
         (∀ d, st2.devPos d = st.devPos d + (if d = idx then K else 0)) ∧
         st2.recreates = st.recreates ++ List.replicate K idx) := by
  have h := runLoop_spec env idx K 0 fuel false st
    (by intro j hj; rw [Nat.zero_add]; exact hth j hj)
    (by rwa [Nat.zero_add]) hfuel hdev hadv
  simpa using h





/-- Claim C1 counterexample: running subgraph 1 (a call to body 0) with
one caught failure succeeds after failover, yet the device iterator of
body `real(1) = 0` has **not** advanced — the code advanced call-site
descriptor 1's iterator instead. -/
theorem C1_counterexample :
    loopFailover (runLoop foenvCx 1 3 0 false fostCx) = some true ∧
    realOf foenvCx 1 = 0 ∧
    loopDevPos (runLoop foenvCx 1 3 0 false fostCx) 0 = some 0 ∧
    loopDevPos (runLoop foenvCx 1 3 0 false fostCx) 1 = some 1 :=
  ⟨by decide, by decide, by decide, by decide⟩

/-- Witness for `C1_failover` at `foenvCx` with one failing attempt. -/
theorem C1_failover_witness :
    ((∃ st2 fo2, runLoop foenvCx 1 3 0 false fostCx
        = LoopResult.ok st2 fo2) ↔
      (∀ j, j < 1 → foenvCx.compileOk (realOf foenvCx 1) j = true))
    ∧ ((∀ j, j < 1 → foenvCx.compileOk (realOf foenvCx 1) j = true) →
       ∃ st2, runLoop foenvCx 1 3 0 false fostCx
            = LoopResult.ok st2 (decide (0 < 1)) ∧
         (∀ d, st2.devPos d
            = fostCx.devPos d + (if d = 1 then 1 else 0)) ∧
         st2.recreates = fostCx.recreates ++ List.replicate 1 1) :=
  C1_failover foenvCx 1 1 3 fostCx
    (by intro j hj; interval_cases j; decide) (by decide) (by decide)
    (by decide) (fun j => rfl)

/-- Claim C6: when `run_subrequest_for_success(idx)` completes without a
failure, the primary and reserve handles of body `real(idx)` are swapped
exactly when pipelining is enabled and `m_funcall_pipeline[idx].next` is
set; otherwise the pool is returned unchanged. -/
theorem C6_pipeline_swap (env : FoEnv) (idx fuel : Nat) (st : FoState)
    (hth : env.throws 0 = false)
    (hfuel : 0 < fuel)
    (hdev : st.subreqDev (realOf env idx)
      = env.deviceAt (realOf env idx) (st.devPos (realOf env idx))) :
    runLoop env idx fuel 0 false st
      = LoopResult.ok
          (if env.usePipelining && env.pipelineNext idx then
            swapAt (realOf env idx) st
          else st) false
    ∧ (swapAt (realOf env idx) st).subreq (realOf env idx)
        = st.reserve (realOf env idx)
    ∧ (swapAt (realOf env idx) st).reserve (realOf env idx)
        = st.subreq (realOf env idx) := by
  refine ⟨?_, by simp [swapAt], by simp [swapAt]⟩
  cases fuel with
  | zero => omega
  | succ f =>
    simp only [runLoop]
    rw [if_neg (not_not_intro hdev), hth, if_neg Bool.false_ne_true]



/-- Witness for `C6_pipeline_swap` at `foenvW`, `fostW`. -/
theorem C6_pipeline_swap_witness :
    runLoop foenvW 1 2 0 false fostW
      = LoopResult.ok
          (if foenvW.usePipelining && foenvW.pipelineNext 1 then
            swapAt (realOf foenvW 1) fostW
          else fostW) false
    ∧ (swapAt (realOf foenvW 1) fostW).subreq (realOf foenvW 1)
        = fostW.reserve (realOf foenvW 1)
    ∧ (swapAt (realOf foenvW 1) fostW).reserve (realOf foenvW 1)
        = fostW.subreq (realOf foenvW 1) :=
  C6_pipeline_swap foenvW 1 2 fostW (by decide) (by decide) (by decide)

/-- Claim C8 (amended): `cancel_subrequest(idx)` forwards the cancel call
to the request stored at the call-site slot `idx` (`m_subrequests[idx]`);
that slot is the live subrequest at `real(idx)` only when `idx` is not a
proper function call. -/
theorem C8_cancel_target (env : FoEnv) (st : FoState) (idx : Nat)
    (h : env.replacedBy idx = none) :
    cancelTarget st idx = st.subreq idx ∧
    cancelTarget st idx = st.subreq (realOf env idx) := by
  refine ⟨rfl, ?_⟩
  unfold realOf
  rw [h]
  rfl

/-- Claim C8 counterexample: subgraph 1 is a function call to body 0; the
live executing handle is `m_subrequests[real(1)] = some 10`, but
`cancel_subrequest(1)` dereferences `m_subrequests[1]`, which holds no
request — the cancel is not forwarded to the executing handle. -/
theorem C8_counterexample :
    cancelTarget fostCx 1 = none ∧
    foenvCx.replacedBy 1 = some 0 ∧
    fostCx.subreq (realOf foenvCx 1) = some 10 ∧
    cancelTarget fostCx 1 ≠ fostCx.subreq (realOf foenvCx 1) := by
  refine ⟨rfl, rfl, rfl, by decide⟩

/-- Witness for `C8_cancel_target` at the non-function-call subgraph 0. -/
theorem C8_cancel_target_witness :
    cancelTarget fostCx 0 = fostCx.subreq 0 ∧
    cancelTarget fostCx 0 = fostCx.subreq (realOf foenvCx 0) :=
  C8_cancel_target foenvCx fostCx 0 rfl

/-! ### Claim C7 — closures with `update_required = false` -/

theorem count_flatMap_sum {α β : Type} [BEq β] (f : α → List β)
    (b : β) : ∀ l : List α,
      (l.flatMap f).count b = (l.map fun x => (f x).count b).sum := by
  intro l
  induction l with
  | nil => rfl
  | cons x xs ih => simp [List.count_append, ih]

theorem sum_indicator_range (i : Nat) :
    ∀ n : Nat, i < n →
      (((List.range n).map fun j => if j = i then 1 else 0).sum) = 1 := by
  intro n
  induction n with
  | zero => omega
  | succ n ih =>
    intro hin
    rw [List.range_succ, List.map_append, List.sum_append]
    by_cases h : i < n
    · rw [ih h]
      have hne : ¬(n = i) := by omega
      simp [hne]
    · have hni : i = n := by omega
      subst hni
      have h0 : (((List.range i).map fun j =>
          if j = i then 1 else 0).sum) = 0 := by
        apply List.sum_eq_zero
        intro x hx
        obtain ⟨j, hj, hjx⟩ := List.mem_map.mp hx
        rw [← hjx, if_neg (by have := List.mem_range.mp hj; omega)]
      rw [h0]
      simp

theorem ctorBlock_inner_count (d : SubDesc) (i r c : Nat)
    (hrb : d.replacedBy = some r) (hupd : d.update_required c = false) :
    ∀ len : Nat,
      (((List.range len).filterMap fun x =>
          if d.update_required x then none
          else some (d.replacedBy.getD i, d.param_base + x)).count
        (r, d.param_base + c))
      = if c < len then 1 else 0 := by
  intro len
  induction len with
  | zero => simp
  | succ len ih =>
    rw [List.range_succ, List.filterMap_append, List.count_append, ih]
    by_cases hl : d.update_required len = true
    · have hcl : ¬(c = len) := by
        intro he
        rw [← he, hupd] at hl
        cases hl
      have hone : (([len] : List Nat).filterMap fun x =>
          if d.update_required x then none
          else some (d.replacedBy.getD i, d.param_base + x)) = [] := by
        simp [hl]
      rw [hone, List.count_nil]
      by_cases hcn : c < len
      · rw [if_pos hcn, if_pos (by omega)]
      · rw [if_neg hcn, if_neg (by omega)]
    · have hlf : d.update_required len = false := Bool.eq_false_iff.mpr hl
      have hone : (([len] : List Nat).filterMap fun x =>
          if d.update_required x then none
          else some (d.replacedBy.getD i, d.param_base + x))
          = [(r, d.param_base + len)] := by
        simp [hlf, hrb]
      rw [hone]
      by_cases hcl : c = len
      · subst hcl
        rw [List.count_cons, List.count_nil]
        simp
      · have hcount : (([(r, d.param_base + len)]) :
            List (Nat × Nat)).count (r, d.param_base + c) = 0 :=
          List.count_eq_zero.mpr (by
            intro hmm
            rw [List.mem_singleton] at hmm
            have h2 := congrArg Prod.snd hmm
            simp only at h2
            omega)
        rw [hcount]
        by_cases hcn : c < len
        · rw [if_pos hcn, if_pos (by omega)]
        · rw [if_neg hcn, if_neg (by omega)]

/-- Claim C7 (amended): for a function body with a single call site and a
closure index `c` with `update_required[c] = false` **whose element type
matches the element type of the tensor at body input `param_base + c`**,
the constructor's weights-bank loop binds that port exactly once, no call
to `unpack_closure` ever unpacks, copies into, or rebinds it, and the
spatial loop of `unsafe_infer` never rebinds it either (its set-tensor
calls only touch ports in `spatial->params`, all below `param_base`).
(Without the element-type proviso the claim fails: a mismatch puts `c` on
the unpack path of every `unpack_closure` call — see
`C7_counterexample`.) -/
theorem C7_closure_bound_once (m : CtorModel) (i r c : Nat)
    (portET : Nat → EType) (nc : Bool)
    (hi : i < m.numSub)
    (hcomp : (m.desc i).compiled = true)
    (hrb : (m.desc i).replacedBy = some r)
    (huniq : ∀ j, j < m.numSub → (m.desc j).compiled = true →
      ((m.desc j).replacedBy).isSome = true → j = i)
    (hc : c < (m.desc i).closureLen)
    (hupd : (m.desc i).update_required c = false)
    (het : (m.desc i).closureET c = portET ((m.desc i).param_base + c)) :
    (ctorClosureBinds m).count (r, (m.desc i).param_base + c) = 1
    ∧ (c ∉ (unpackClosureLists (m.desc i) portET nc).1 ∧
       c ∉ (unpackClosureLists (m.desc i) portET nc).2.1 ∧
       c ∉ (unpackClosureLists (m.desc i) portET nc).2.2)
    ∧ (∀ sp, (m.desc r).spatial = some sp →
        (∀ p ∈ sp.params, p.idx < (m.desc i).param_base) →
        ∀ s w, SpEv.setIn ((m.desc i).param_base + c) s w
          ∉ inferTrace (m.desc r)) := by
  refine ⟨?_, ?_, ?_⟩
  · unfold ctorClosureBinds
    rw [count_flatMap_sum]
    have hmap : ((List.range m.numSub).map fun j =>
        (ctorBlock m j).count (r, (m.desc i).param_base + c))
        = (List.range m.numSub).map fun j => if j = i then 1 else 0 := by
      apply List.map_congr_left
      intro j hj
      by_cases hji : j = i
      · subst hji
        rw [if_pos rfl]
        unfold ctorBlock
        rw [if_pos (by rw [hcomp, hrb]; rfl)]
        rw [ctorBlock_inner_count (m.desc j) j r c hrb hupd
          (m.desc j).closureLen, if_pos hc]
      · rw [if_neg hji]
        unfold ctorBlock
        by_cases hg : (m.desc j).compiled = true ∧
            ((m.desc j).replacedBy).isSome = true
        · exact absurd (huniq j (List.mem_range.mp hj) hg.1 hg.2) hji
        · rw [if_neg (by
            intro hcon
            rcases Bool.and_eq_true .. |>.mp hcon with ⟨h1, h2⟩
            exact hg ⟨h1, h2⟩)]
          rfl
    rw [hmap]
    exact sum_indicator_range i m.numSub hi
  · have heq := unpackFold_eq (m.desc i) portET nc
      (List.range (m.desc i).closureLen) [] [] []
    unfold unpackClosureLists
    rw [heq]
    refine ⟨?_, ?_, ?_⟩ <;>
      simp [List.mem_filter, het, hupd]
  · intro sp hsp hlt s w hmem
    simp only [inferTrace, hsp,
      spatialFold_eq (m.desc r) sp sp.nway_iters 0 [],
      List.nil_append] at hmem
    rcases List.mem_append.mp hmem with hmain | htail
    · obtain ⟨k, hk, hin⟩ := List.mem_flatMap.mp hmain
      simp [spatialIterEvents] at hin
      obtain ⟨p, hp, h1, h2, h3⟩ := hin
      have := hlt p hp
      omega
    · by_cases ht : sp.tail_size = 0
      · rw [if_pos ht] at htail
        cases htail
      · rw [if_neg ht] at htail
        simp [spatialTailEvents] at htail
        obtain ⟨p, hp, h1, h2, h3⟩ := htail
        have := hlt p hp
        omega


/-- Claim C7 counterexample: closure index 0 of `c7descCx` has
`update_required = false`, yet every call of `unpack_closure` classifies
it as unpack-required (rule A fires on the element-type mismatch) and so
writes the port's memory again — the port is not left untouched after
construction. -/
theorem C7_counterexample :
    c7descCx.update_required 0 = false ∧
    0 ∈ (unpackClosureLists c7descCx (fun _ => EType.f16) false).1 := by
  refine ⟨rfl, by decide⟩


/-- Witness for `C7_closure_bound_once` at `c7modelW`, body 1,
closure 0. -/
theorem C7_closure_bound_once_witness :
    (ctorClosureBinds c7modelW).count
        (1, (c7modelW.desc 1).param_base + 0) = 1
    ∧ (0 ∉ (unpackClosureLists (c7modelW.desc 1)
          (fun _ => EType.f16) false).1 ∧
       0 ∉ (unpackClosureLists (c7modelW.desc 1)
          (fun _ => EType.f16) false).2.1 ∧
       0 ∉ (unpackClosureLists (c7modelW.desc 1)
          (fun _ => EType.f16) false).2.2)
    ∧ (∀ sp, (c7modelW.desc 1).spatial = some sp →
        (∀ p ∈ sp.params, p.idx < (c7modelW.desc 1).param_base) →
        ∀ s w, SpEv.setIn ((c7modelW.desc 1).param_base + 0) s w
          ∉ inferTrace (c7modelW.desc 1)) :=
  C7_closure_bound_once c7modelW 1 1 0 (fun _ => EType.f16) false
    (by decide) rfl rfl
    (by
      intro j hj hcj hrj
      have hj2 : j < 2 := hj
      interval_cases j
      · exact absurd hcj (by decide)
      · rfl)
    (by decide) rfl rfl

/-- Witness for `C3_unpack_classification` at `c7descCx`. -/
theorem C3_unpack_classification_witness :
    unpackClosureLists c7descCx (fun _ => EType.f16) false =
      (specUnpackList c7descCx (fun _ => EType.f16),
       specCopyList c7descCx (fun _ => EType.f16) false,
       specRebindList c7descCx (fun _ => EType.f16) false)
    ∧ ∀ c, kernelFor c7descCx c = specKernelFor c7descCx c :=
  C3_unpack_classification c7descCx (fun _ => EType.f16) false
    (fun h => absurd h (by decide))
